import Mathlib

/-!
Shallow embedding of `src/main.py` (the crocle control plane) and proofs about it.

Lines of log output are modelled as `List Char`; raw byte buffers as `List UInt8`;
the wall clock as `ℚ` (seconds, the value of Python's `time.time()`).  Each Python
regular expression used by the source is embedded as a specialised backtracking
matcher with Python `re` semantics: `re.search` tries positions left to right, and
at a position alternatives are tried in the order the pattern prescribes (greedy
quantifiers longest first, lazy quantifiers shortest first).
-/

namespace Crocle

/-- Python `\d` restricted to ASCII (all inputs of interest are ASCII). -/
def pyIsDigit (c : Char) : Bool := c.isDigit

/-- Python `\s` restricted to ASCII: space, tab, newline, carriage return,
vertical tab, form feed. -/
def pyIsSpace (c : Char) : Bool :=
  c == ' ' || c == '\t' || c == '\n' || c == '\r' || c == '\x0b' || c == '\x0c'

/-- Python `\w` restricted to ASCII: letters, digits, underscore. -/
def pyIsWord (c : Char) : Bool := c.isAlpha || c.isDigit || c == '_'

/-- Python `\b` immediately before a word character: satisfied when the preceding
character (`none` at the start of the string) is not a word character. -/
def boundaryBeforeWord : Option Char → Bool
  | none => true
  | some p => !pyIsWord p

/-- Greedy `p*` in continuation-passing style with backtracking: the longest
consumption is tried first, and on failure of the continuation one fewer
character is consumed, as in `re`.  `acc` collects consumed characters in
reverse on top of what was consumed before. -/
def kleeneP (p : Char → Bool) (k : List Char → List Char → Option α) :
    List Char → List Char → Option α
  | acc, [] => k acc []
  | acc, c :: rest =>
    if p c then (kleeneP p k (c :: acc) rest) <|> k acc (c :: rest)
    else k acc (c :: rest)

/-- Greedy `p+`: one mandatory character then greedy `p*`. -/
def plusP (p : Char → Bool) (k : List Char → List Char → Option α) :
    List Char → List Char → Option α
  | acc, c :: rest => if p c then kleeneP p k (c :: acc) rest else none
  | _, [] => none

/-- `re.search` for a pattern with no look-behind: try the matcher at every
position, leftmost first. -/
def searchO (m : List Char → Option α) : List Char → Option α
  | [] => m []
  | c :: rest => m (c :: rest) <|> searchO m rest

/-- Greedy `\s*` (no capture) followed by the continuation, with backtracking. -/
def wsStarThen (k : List Char → Bool) : List Char → Bool
  | [] => k []
  | c :: rest =>
    if pyIsSpace c then (wsStarThen k rest || k (c :: rest)) else k (c :: rest)

/-- Matches `\|` at the current position. -/
def pipeAt : List Char → Bool
  | '|' :: _ => true
  | _ => false

/-- Tail `%\s*\|` of the progress patterns: on success returns the capture `ds`
handed in by the digit matcher. -/
def percentTail (ds : List Char) : List Char → Option (List Char)
  | '%' :: rest => if wsStarThen pipeAt rest then some ds else none
  | _ => none

/-- Matcher for `(\d{1,3})%\s*\|` at one position (the percent pattern of
`parse_progress_details`, line 162 of `src/main.py`); returns the capture
group.  The greedy bounded quantifier `\d{1,3}` tries three digits, then two,
then one. -/
def percentCapAt : List Char → Option (List Char)
  | [] => none
  | c1 :: rest1 =>
    if pyIsDigit c1 then
      (match rest1 with
       | c2 :: c3 :: rest3 =>
         if pyIsDigit c2 && pyIsDigit c3 then percentTail [c1, c2, c3] rest3 else none
       | _ => none) <|>
      (match rest1 with
       | c2 :: rest2 => if pyIsDigit c2 then percentTail [c1, c2] rest2 else none
       | _ => none) <|>
      percentTail [c1] rest1
    else none

/-- Numeric value of a digit capture (`int()` of an all-digit string). -/
def digitsToNat (ds : List Char) : Nat :=
  ds.foldl (fun a c => a * 10 + (c.toNat - '0'.toNat)) 0

/-- Same value as a Python `int`. -/
def digitsToInt (ds : List Char) : Int := (digitsToNat ds : Int)

/-- Search loop for `PROGRESS_LINE_REGEX = \b\d{1,3}%\s*\|` (line 92 of
`src/main.py`).  Since a match necessarily starts with a digit (a word
character), the word boundary `\b` holds exactly when the preceding character
is absent or not a word character. -/
def progressSearchAux (prev : Option Char) : List Char → Bool
  | [] => false
  | c :: rest =>
    (boundaryBeforeWord prev && (percentCapAt (c :: rest)).isSome) ||
      progressSearchAux (some c) rest

/-- `PROGRESS_LINE_REGEX.search(line)` viewed as a Boolean. -/
def progress_line_search (line : List Char) : Bool := progressSearchAux none line

/-- First line of a list matching `PROGRESS_LINE_REGEX`. -/
def find_first_progress_line : List (List Char) → Option (List Char)
  | [] => none
  | l :: rest =>
    if progress_line_search l then some l else find_first_progress_line rest

/-- `find_last_progress_line` (lines 152-156 of `src/main.py`): iterate the
lines in reverse and return the first that matches `PROGRESS_LINE_REGEX`. -/
def find_last_progress_line (lines : List (List Char)) : Option (List Char) :=
  find_first_progress_line lines.reverse

/-- Python `str.strip()` over the ASCII whitespace class. -/
def pyStrip (cs : List Char) : List Char :=
  ((cs.dropWhile pyIsSpace).reverse.dropWhile pyIsSpace).reverse

/-- Unit letter class `[kmgtpe]` of `SPEED_REGEX` under `re.IGNORECASE`. -/
def unitLetter (c : Char) : Bool :=
  c.toLower == 'k' || c.toLower == 'm' || c.toLower == 'g' ||
    c.toLower == 't' || c.toLower == 'p' || c.toLower == 'e'

/-- Tail `\s*/\s*s\b` of `SPEED_REGEX`; `acc` holds the consumed characters of
the whole match in reverse, and the full `group(0)` is returned on success. -/
def speedEnd (acc : List Char) (cs : List Char) : Option (List Char) :=
  kleeneP pyIsSpace
    (fun a2 r2 =>
      match r2 with
      | '/' :: r3 =>
        kleeneP pyIsSpace
          (fun a3 r4 =>
            match r4 with
            | s :: r5 =>
              if s.toLower == 's' then
                match r5 with
                | [] => some (List.reverse (s :: a3))
                | n :: _ =>
                  if pyIsWord n then none else some (List.reverse (s :: a3))
              else none
            | [] => none)
          ('/' :: a2) r3
      | _ => none)
    acc cs

/-- Segment `[kmgtpe]i?b` (case-insensitive) of `SPEED_REGEX` followed by
`speedEnd`; the optional `i?` is greedy, so the two-letter reading is tried
before the one-letter reading. -/
def speedUnit (acc : List Char) (cs : List Char) : Option (List Char) :=
  match cs with
  | u :: r1 =>
    if unitLetter u then
      (match r1 with
       | i :: b :: r3 =>
         if i.toLower == 'i' && b.toLower == 'b' then
           speedEnd (b :: i :: u :: acc) r3
         else none
       | _ => none) <|>
      (match r1 with
       | b :: r2 => if b.toLower == 'b' then speedEnd (b :: u :: acc) r2 else none
       | _ => none)
    else none
  | [] => none

/-- Segment `(?:\.\d+)?\s*` of `SPEED_REGEX` after the integer part; the
optional fraction group is greedy: taking it is tried before skipping it. -/
def speedAfterNumber (acc : List Char) (cs : List Char) : Option (List Char) :=
  (match cs with
   | '.' :: r1 =>
     plusP pyIsDigit (fun a2 r2 => kleeneP pyIsSpace speedUnit a2 r2) ('.' :: acc) r1
   | _ => none) <|>
  kleeneP pyIsSpace speedUnit acc cs

/-- Matcher for `SPEED_REGEX = \b\d+(?:\.\d+)?\s*[kmgtpe]i?b\s*/\s*s\b`
(line 93 of `src/main.py`, `re.IGNORECASE`) at one position, word boundary
checked by the caller; returns `group(0)`. -/
def speedAt (cs : List Char) : Option (List Char) :=
  plusP pyIsDigit speedAfterNumber [] cs

/-- Search loop of `SPEED_REGEX.search`: a match starts with a digit, so `\b`
holds exactly when the previous character is absent or not a word character. -/
def speedSearchAux (prev : Option Char) : List Char → Option (List Char)
  | [] => none
  | c :: rest =>
    (if boundaryBeforeWord prev then speedAt (c :: rest) else none) <|>
      speedSearchAux (some c) rest

/-- `SPEED_REGEX.search(line)`, returning `group(0)`. -/
def SPEED_REGEX_search (line : List Char) : Option (List Char) :=
  speedSearchAux none line

/-- Matcher for `\[([^\]]+)\]` at one position (the ETA bracket pattern, line
176 of `src/main.py`); returns the capture group. -/
def bracketAt : List Char → Option (List Char)
  | '[' :: rest =>
    plusP (fun d => !(d == ']'))
      (fun acc r2 =>
        match r2 with
        | ']' :: _ => some acc.reverse
        | _ => none)
      [] rest
  | _ => none

/-- Python `str.split(sep)` for a single-character separator: every occurrence
separates, adjacent separators produce empty pieces. -/
def splitChar (sep : Char) : List Char → List (List Char)
  | [] => [[]]
  | c :: rest =>
    if c == sep then [] :: splitChar sep rest
    else
      match splitChar sep rest with
      | g :: gs => (c :: g) :: gs
      | [] => [[c]]

/-- Extracted progress fields, the dict returned by `parse_progress_details`.
A `none` field is Python's `None`. -/
structure ProgressDetails where
  percent : Option Int
  speed : Option (List Char)
  eta : Option (List Char)
  filename : Option (List Char)
deriving Repr, DecidableEq

/-- Tail `\s+\d{1,3}%\s*\|` of the filename pattern. -/
def fnTail : List Char → Bool
  | [] => false
  | c :: rest =>
    pyIsSpace c && wsStarThen (fun cs => (percentCapAt cs).isSome) rest

/-- Anchored lazy loop for `^(.*?)\s+\d{1,3}%\s*\|` (line 166 of
`src/main.py`): the lazy `(.*?)` tries the shortest prefix first, and `.`
matches any character except a newline.  Returns the capture group. -/
def fnCapAux : List Char → List Char → Option (List Char)
  | acc, [] => if fnTail [] then some acc.reverse else none
  | acc, c :: rest =>
    if fnTail (c :: rest) then some acc.reverse
    else if c == '\n' then none else fnCapAux (c :: acc) rest

/-- The filename capture of `parse_progress_details` before `.strip()`. -/
def filename_capture (line : List Char) : Option (List Char) := fnCapAux [] line

/-- `parse_progress_details` (lines 159-184 of `src/main.py`): percent from
`(\d{1,3})%\s*\|`, filename from `^(.*?)\s+\d{1,3}%\s*\|` stripped, speed from
`SPEED_REGEX` with the spaces of the match removed (`.replace(" ", "")`), and
ETA as the last nonempty `:`-separated piece of the first `[...]` group. -/
def parse_progress_details (line : List Char) : ProgressDetails :=
  let percent := (searchO percentCapAt line).map digitsToInt
  let filename := (filename_capture line).map pyStrip
  let speed := (SPEED_REGEX_search line).map (List.filter (fun c => !(c == ' ')))
  let eta :=
    match searchO bracketAt line with
    | none => none
    | some run =>
      let content := pyStrip run
      if content.isEmpty then none
      else
        let parts := ((splitChar ':' content).map pyStrip).filter (fun p => !p.isEmpty)
        parts.getLast?
  { percent := percent, speed := speed, eta := eta, filename := filename }

/-- Character class `[a-z0-9-]` of the code-capture groups under
`re.IGNORECASE`: letters of either case, digits, hyphen. -/
def codeChar (c : Char) : Bool := c.toLower.isLower || c.isDigit || c == '-'

/-- Case-insensitive literal matcher; returns the rest of the input. -/
def litIC : List Char → List Char → Option (List Char)
  | [], cs => some cs
  | _ :: _, [] => none
  | l :: ls, c :: cs => if c.toLower == l.toLower then litIC ls cs else none

/-- Matcher for `CROC_SECRET="([a-z0-9-]+)"` (`re.IGNORECASE`, line 143 of
`src/main.py`) at one position; returns the capture group. -/
def crocSecretAt (cs : List Char) : Option (List Char) :=
  match litIC ("CROC_SECRET=\"".data) cs with
  | some r =>
    plusP codeChar
      (fun acc r2 =>
        match r2 with
        | '"' :: _ => some acc.reverse
        | _ => none)
      [] r
  | none => none

/-- Matcher for `Code\s+is:\s*([a-z0-9-]+)` (`re.IGNORECASE`, line 146 of
`src/main.py`) at one position; returns the capture group. -/
def codeIsAt (cs : List Char) : Option (List Char) :=
  match litIC ("Code".data) cs with
  | some r1 =>
    plusP pyIsSpace
      (fun _ r2 =>
        match litIC ("is:".data) r2 with
        | some r3 =>
          kleeneP pyIsSpace
            (fun _ r4 => plusP codeChar (fun acc _ => some acc.reverse) [] r4)
            [] r3
        | none => none)
      [] r1
  | none => none

/-- `parse_code` (lines 141-149 of `src/main.py`): per line, first the
`CROC_SECRET` pattern, then the `Code is:` pattern; the first match over the
lines wins. -/
def parse_code : List (List Char) → Option (List Char)
  | [] => none
  | line :: rest =>
    match searchO crocSecretAt line with
    | some c => some c
    | none =>
      match searchO codeIsAt line with
      | some c => some c
      | none => parse_code rest

/-- The replacement character U+FFFD. -/
def replChar : Char := Char.ofNat 0xFFFD

/-- Continuation byte test `0x80 ≤ b ≤ 0xBF`. -/
def isContByte (m : Nat) : Bool := decide (0x80 ≤ m) && decide (m ≤ 0xBF)

/-- `bytes.decode("utf-8", errors="replace")`: standard UTF-8 decoding where
every maximal ill-formed subpart is replaced by one U+FFFD, as CPython does.
Lead-byte-dependent ranges of the second byte exclude overlong encodings,
surrogates and code points above U+10FFFF, so every emitted scalar is valid.
Recursion is driven by a fuel counter for structural termination; every step
consumes at least one byte, so fuel equal to the buffer length never runs
out. -/
def utf8DecodeReplaceAux : Nat → List UInt8 → List Char
  | 0, _ => []
  | _, [] => []
  | Nat.succ fuel, b :: rest =>
    let n := b.toNat
    if n < 0x80 then Char.ofNat n :: utf8DecodeReplaceAux fuel rest
    else if n < 0xC2 then replChar :: utf8DecodeReplaceAux fuel rest
    else if n ≤ 0xDF then
      match rest with
      | [] => [replChar]
      | b2 :: rest2 =>
        if isContByte b2.toNat then
          Char.ofNat ((n - 0xC0) * 0x40 + (b2.toNat - 0x80)) :: utf8DecodeReplaceAux fuel rest2
        else replChar :: utf8DecodeReplaceAux fuel rest
    else if n ≤ 0xEF then
      let lo2 := if n = 0xE0 then 0xA0 else 0x80
      let hi2 := if n = 0xED then 0x9F else 0xBF
      match rest with
      | [] => [replChar]
      | b2 :: rest2 =>
        if lo2 ≤ b2.toNat ∧ b2.toNat ≤ hi2 then
          match rest2 with
          | [] => [replChar]
          | b3 :: rest3 =>
            if isContByte b3.toNat then
              Char.ofNat ((n - 0xE0) * 0x1000 + (b2.toNat - 0x80) * 0x40 +
                (b3.toNat - 0x80)) :: utf8DecodeReplaceAux fuel rest3
            else replChar :: utf8DecodeReplaceAux fuel rest2
        else replChar :: utf8DecodeReplaceAux fuel rest
    else if n ≤ 0xF4 then
      let lo2 := if n = 0xF0 then 0x90 else 0x80
      let hi2 := if n = 0xF4 then 0x8F else 0xBF
      match rest with
      | [] => [replChar]
      | b2 :: rest2 =>
        if lo2 ≤ b2.toNat ∧ b2.toNat ≤ hi2 then
          match rest2 with
          | [] => [replChar]
          | b3 :: rest3 =>
            if isContByte b3.toNat then
              match rest3 with
              | [] => [replChar]
              | b4 :: rest4 =>
                if isContByte b4.toNat then
                  Char.ofNat ((n - 0xF0) * 0x40000 + (b2.toNat - 0x80) * 0x1000 +
                    (b3.toNat - 0x80) * 0x40 + (b4.toNat - 0x80)) :: utf8DecodeReplaceAux fuel rest4
                else replChar :: utf8DecodeReplaceAux fuel rest3
            else replChar :: utf8DecodeReplaceAux fuel rest2
        else replChar :: utf8DecodeReplaceAux fuel rest
    else replChar :: utf8DecodeReplaceAux fuel rest

/-- `bytes.decode("utf-8", errors="replace")`. -/
def utf8DecodeReplace (bs : List UInt8) : List Char :=
  utf8DecodeReplaceAux bs.length bs

/-- `re.split(r"[\r\n]+", text)`: pieces separated by maximal runs of the
characters satisfying `p`; leading/trailing runs produce empty pieces, as in
`re.split`. -/
def splitRuns (p : Char → Bool) : List Char → List (List Char)
  | [] => [[]]
  | c :: rest =>
    if p c then
      match rest with
      | [] => [] :: splitRuns p rest
      | d :: _ => if p d then splitRuns p rest else [] :: splitRuns p rest
    else
      match splitRuns p rest with
      | g :: gs => (c :: g) :: gs
      | [] => [[c]]

/-- Separator class `[\r\n]` of `decode_log_lines`. -/
def isCrLf (c : Char) : Bool := c == '\r' || c == '\n'

/-- `decode_log_lines` (lines 96-99 of `src/main.py`): decode the raw bytes
with replacement, split on runs of `\r`/`\n`, strip each piece, keep the
nonempty ones. -/
def decode_log_lines (raw : List UInt8) : List (List Char) :=
  let text := utf8DecodeReplace raw
  let parts := splitRuns isCrLf text
  (parts.map pyStrip).filter (fun part => !part.isEmpty)

/-- State of one external Docker container as seen through the narrow runtime
interface `handle_container` uses.  `rawLogs` is the byte buffer returned by
`container.logs(tail=200)`; `createdTs` is the result of
`parse_docker_time(container.attrs["Created"])`, the external ISO-8601
timestamp abstracted to the rational epoch-seconds it parses to (`none` when
the attribute is missing or unparsable); `labelFilename` is
`container.labels.get("crocle.filename")`. -/
structure ContainerState where
  rawLogs : List UInt8
  createdTs : Option ℚ
  labelFilename : Option (List Char)
deriving Repr, DecidableEq

/-- `WAITING_MAX_AGE_SECONDS = 600` (line 41 of `src/main.py`). -/
def WAITING_MAX_AGE_SECONDS : ℚ := 600

/-- `CLEANUP_INTERVAL_SECONDS = 60` (line 40 of `src/main.py`). -/
def CLEANUP_INTERVAL_SECONDS : ℚ := 60

/-- Python `int()` applied to a float/rational: truncation toward zero. -/
def pyIntTrunc (q : ℚ) : Int := if 0 ≤ q then ⌊q⌋ else ⌈q⌉

/-- The dict returned by `handle_container`; `none` is Python's `None`. -/
structure ContainerInfo where
  status : String
  code : List Char
  progress : Int
  speed : Option (List Char)
  eta : Option (List Char)
  filename : Option (List Char)
  last_progress : List Char
  waiting_minutes_ago : Option Int
  waiting_minutes_remaining : Option Int
  created_timestamp : Option ℚ
  label_filename : Option (List Char)
deriving Repr, DecidableEq

/-- `handle_container` (lines 186-237 of `src/main.py`) as a function of the
container's externally observed state and the current time `now`
(`time.time()`).  The initial `container.reload()` and the raw
`created_at`/`started_at` attribute strings only feed `parse_docker_time`,
whose rational result is the `createdTs` field of `ContainerState`. -/
def handle_container (c : ContainerState) (now : ℚ) : ContainerInfo :=
  let logs := decode_log_lines c.rawLogs
  let last_progress := find_last_progress_line logs
  let details : ProgressDetails :=
    match last_progress with
    | some l => parse_progress_details l
    | none => { percent := none, speed := none, eta := none, filename := none }
  let code := (parse_code logs).getD []
  let status : String :=
    if details.percent.isSome then "transferring"
    else if !code.isEmpty then "waiting"
    else "preparing"
  let created_timestamp := c.createdTs
  let waiting : Option Int × Option Int :=
    if status = "waiting" then
      match created_timestamp with
      | some ts =>
        let elapsed := now - ts
        (some (pyIntTrunc (elapsed / 60)),
         some (max 0 (pyIntTrunc ((WAITING_MAX_AGE_SECONDS - elapsed) / 60))))
      | none => (none, none)
    else (none, none)
  { status := status
    code := code
    progress := (details.percent).getD 0
    speed := details.speed
    eta := details.eta
    filename := details.filename
    last_progress := (last_progress).getD []
    waiting_minutes_ago := waiting.1
    waiting_minutes_remaining := waiting.2
    created_timestamp := created_timestamp
    label_filename := c.labelFilename }

/-- A raised `docker.errors.DockerException`. -/
inductive DockerErr
  | exc (msg : String)
deriving Repr, DecidableEq

/-- Body of the `for container in containers` loop of
`cleanup_waiting_containers` (lines 251-264 of `src/main.py`).  Returns the
containers on which `container.remove(force=True)` was attempted; a
`DockerException` raised by the removal is caught and the loop continues with
the next container, so the attempt is recorded in either case. -/
def cleanup_attempt (containers : List ContainerState)
    (removeResult : ContainerState → Except DockerErr Unit) (now : ℚ) :
    List ContainerState :=
  match containers with
  | [] => []
  | c :: rest =>
    let info := handle_container c now
    if info.status ≠ "waiting" then cleanup_attempt rest removeResult now
    else
      match info.created_timestamp with
      | none => cleanup_attempt rest removeResult now
      | some ts =>
        if now - ts < WAITING_MAX_AGE_SECONDS then cleanup_attempt rest removeResult now
        else
          match removeResult c with
          | Except.ok _ => c :: cleanup_attempt rest removeResult now
          | Except.error _ => c :: cleanup_attempt rest removeResult now

/-- One cycle of `cleanup_waiting_containers` (lines 240-264 of
`src/main.py`) after the sleep, with the two fallible runtime calls as
explicit inputs: `listing` is `DOCKER_CLIENT.containers.list(...)` and
`removeResult` gives the outcome of each `container.remove(force=True)`.  A
`DockerException` from the listing is caught and the cycle ends with no
removals (`continue`); the returned value is `Except.ok` of the containers
whose removal was attempted, and `Except.error` would mean an exception
escaped the cycle and killed the supervisor loop. -/
def cleanup_cycle (listing : Except DockerErr (List ContainerState))
    (removeResult : ContainerState → Except DockerErr Unit) (now : ℚ) :
    Except DockerErr (List ContainerState) :=
  match listing with
  | Except.error _ => Except.ok []
  | Except.ok containers => Except.ok (cleanup_attempt containers removeResult now)

/-- What the filesystem holds at an absolute normalized path (symlink-free
model of the host filesystem): nothing, a regular file, a directory, or some
other kind of entry (device, socket, ...).  `Path.exists()` is true for
everything but `missing`; `is_file()`/`is_dir()` single out `file`/`dir`. -/
inductive EntryKind
  | missing
  | file
  | dir
  | other
deriving Repr, DecidableEq

/-- Absolute paths are lists of components (each a `List Char`). -/
abbrev PathComps := List (List Char)

/-- Lexical path normalization: `.` and empty components vanish, `..` removes
the preceding component (and at the filesystem root stays at the root), in the
way `Path.resolve()` normalizes a symlink-free absolute path.  `acc` is the
stack of kept components in reverse. -/
def normAux : PathComps → PathComps → PathComps
  | acc, [] => acc.reverse
  | acc, comp :: rest =>
    if comp = ".".data ∨ comp = [] then normAux acc rest
    else if comp = "..".data then normAux acc.tail rest
    else normAux (comp :: acc) rest

/-- `Path.resolve()` on an absolute path in the symlink-free model. -/
def pyResolve (p : PathComps) : PathComps := normAux [] p

/-- Split a textual path on `/`, dropping empty components (collapsed or
leading/trailing slashes). -/
def pySplitPath (name : List Char) : PathComps :=
  (splitChar '/' name).filter (fun s => !s.isEmpty)

/-- `root / name` in `pathlib`: joining an absolute `name` (leading slash)
discards `root`. -/
def pyJoin (root : PathComps) (name : List Char) : PathComps :=
  match name with
  | '/' :: _ => pySplitPath name
  | _ => root ++ pySplitPath name

/-- `resolve_entry` (lines 80-90 of `src/main.py`): the empty name returns the
resolved root immediately; otherwise the joined path is resolved,
`candidate.relative_to(root.resolve())` must succeed (`candidate` is the root
or below it), and the candidate must exist; any failure yields `None`. -/
def resolve_entry (root : PathComps) (fs : PathComps → EntryKind) (name : String) :
    Option PathComps :=
  if name = "" then some (pyResolve root)
  else
    let candidate := pyResolve (pyJoin root name.data)
    if (pyResolve root).isPrefixOf candidate then
      if fs candidate = EntryKind.missing then none else some candidate
    else none

/-- A value of a multipart form field: a plain string or an uploaded file
(anything `form.get` can return that is not a `str`). -/
inductive FormValue
  | str (s : String)
  | upload
deriving Repr, DecidableEq

/-- The two exception classes `start_transfer` handles around
`DOCKER_CLIENT.containers.run`: the `RuntimeError` raised by
`resolve_host_files_path` when no volume is mounted, and any
`docker.errors.DockerException`. -/
inductive StartErr
  | runtimeError (msg : String)
  | dockerException (msg : String)
deriving Repr, DecidableEq

/-- The container-creation request issued on the success path (the argument of
`DOCKER_CLIENT.containers.run` that the claims inspect). -/
structure RunSpec where
  command : List String
deriving Repr, DecidableEq

/-- An HTTP JSON response: status code, body as a flat JSON object (key/value
pairs in order), and the container-creation request issued, if any. -/
structure TransferResponse where
  statusCode : Nat
  body : List (String × String)
  created : Option RunSpec
deriving Repr, DecidableEq

/-- `ALLOWED_HASHES` (line 43 of `src/main.py`). -/
def ALLOWED_HASHES : List String := ["imohash", "default"]

/-- `start_transfer` (lines 302-347 of `src/main.py`) as a function of the two
form fields, the configured root, the filesystem, and the outcome of the
container-run call (which raises `RuntimeError` if the files volume cannot be
resolved and `DockerException` if Docker cannot start the image).  The
response mirrors each `JSONResponse` of the source, including the success
body `{"hello": "123"}`. -/
def start_transfer (form_filename : Option FormValue) (form_hash : Option FormValue)
    (root : PathComps) (fs : PathComps → EntryKind)
    (runOutcome : Except StartErr Unit) : TransferResponse :=
  let nameVal := form_filename.getD (FormValue.str "")
  let hashVal := form_hash.getD (FormValue.str "imohash")
  let hashAlgo := match hashVal with
    | FormValue.str s => s
    | FormValue.upload => "imohash"
  let hashAlgo := if ALLOWED_HASHES.contains hashAlgo then hashAlgo else "imohash"
  match nameVal with
  | FormValue.upload => ⟨400, [("error", "No file selected.")], none⟩
  | FormValue.str name =>
    if name = "" then ⟨400, [("error", "No file selected.")], none⟩
    else
      match resolve_entry root fs name with
      | none => ⟨400, [("error", "Invalid file selection.")], none⟩
      | some file_path =>
        if fs file_path = EntryKind.file ∨ fs file_path = EntryKind.dir then
          match runOutcome with
          | Except.ok _ =>
            ⟨200, [("hello", "123")],
             some ⟨["send", "--hash", hashAlgo,
                    "/files/" ++ String.mk ((file_path.getLast?).getD [])]⟩⟩
          | Except.error (StartErr.runtimeError m) => ⟨500, [("error", m)], none⟩
          | Except.error (StartErr.dockerException m) =>
            ⟨500, [("error", "Docker is not available or image failed to start."),
                   ("detail", m)], none⟩
        else ⟨400, [("error", "Invalid file selection.")], none⟩

/-- ASCII text as the byte buffer Docker would return (used to build concrete
container states). -/
def asciiBytes (s : String) : List UInt8 :=
  s.data.map (fun c => UInt8.ofNat c.toNat)

/-- Digit-run test for `int()`. -/
def allDigits (ds : List Char) : Bool := ds.all pyIsDigit

/-- Conversion of an unsigned digit string, the core of Python `int()`:
raises (`Except.error`, a `ValueError`) unless the string is nonempty and all
digits. -/
def intDigits (ds : List Char) : Except String Int :=
  if !ds.isEmpty && allDigits ds then Except.ok (digitsToInt ds)
  else Except.error "invalid literal for int() with base 10"

/-- Python `int(str)` with its failure mode made explicit: surrounding
whitespace is stripped, an optional single sign is accepted, and anything
else raises `ValueError`.  (Underscore digit grouping is not modelled; the
only strings the source converts are regex captures of `\d{1,3}`.) -/
def pyInt (cs : List Char) : Except String Int :=
  match pyStrip cs with
  | [] => Except.error "invalid literal for int() with base 10"
  | c :: rest =>
    if c = '+' then intDigits rest
    else if c = '-' then (intDigits rest).map (fun n => -n)
    else intDigits (c :: rest)

/-- Python `parts[-1]` with its failure mode explicit: raises `IndexError` on
an empty list. -/
def pyLastItem (l : List α) : Except String α :=
  match l.getLast? with
  | some x => Except.ok x
  | none => Except.error "list index out of range"

/-- `parse_progress_details` with every potentially raising operation of the
Python body made explicit in the `Except` monad: `int(percent_match.group(1))`
through `pyInt`, and `parts[-1]` (guarded by `if parts:`) through
`pyLastItem`.  All other operations of the body (regex searches, `strip`,
`split`, `replace`) are total. -/
def parse_progress_detailsE (line : List Char) : Except String ProgressDetails := do
  let percent ← match searchO percentCapAt line with
    | some ds => (pyInt ds).map some
    | none => Except.ok none
  let filename := (filename_capture line).map pyStrip
  let speed := (SPEED_REGEX_search line).map (List.filter (fun c => !(c == ' ')))
  let eta ← match searchO bracketAt line with
    | none => Except.ok (none : Option (List Char))
    | some run =>
      let content := pyStrip run
      if content.isEmpty then Except.ok none
      else
        let parts := ((splitChar ':' content).map pyStrip).filter (fun p => !p.isEmpty)
        if parts.isEmpty then Except.ok none
        else (pyLastItem parts).map some
  Except.ok { percent := percent, speed := speed, eta := eta, filename := filename }

/-- Status derivation condition extracted for reasoning about the reaper: the
removal condition of one loop iteration of `cleanup_waiting_containers`. -/
def removalDue (c : ContainerState) (now : ℚ) : Bool :=
  ((handle_container c now).status == "waiting") &&
    (match (handle_container c now).created_timestamp with
     | none => false
     | some ts => decide (WAITING_MAX_AGE_SECONDS ≤ now - ts))

/-- Demo filesystem for concrete endpoint evaluations: a root `files`
containing one regular file `report.pdf`. -/
def fsDemo : PathComps → EntryKind := fun p =>
  if p = ["files".data, "report.pdf".data] then EntryKind.file
  else if p = ["files".data] then EntryKind.dir
  else EntryKind.missing

/-- Concrete container whose log tail carries a progress line (and a code). -/
def demoTransferring : ContainerState :=
  ⟨asciiBytes "Sending report.pdf\nCode is: funny-bear-7\nreport.pdf  45%| 3.2 MB/s [1:23]",
   some 0, none⟩

/-- Concrete container whose log tail carries a code but no progress line. -/
def demoWaiting : ContainerState :=
  ⟨asciiBytes "Sending report.pdf\nCode is: funny-bear-7", some 0, none⟩

/-- Concrete container whose log tail carries neither progress nor code. -/
def demoPreparing : ContainerState := ⟨asciiBytes "Sending report.pdf", some 0, none⟩

/-- Waiting container created at time 0 (age 601 at time 601). -/
def demoWaiting601 : ContainerState := ⟨asciiBytes "Code is: funny-bear-7", some 0, none⟩

/-- Waiting container created at time 2 (age 599 at time 601). -/
def demoWaiting599 : ContainerState := ⟨asciiBytes "Code is: funny-bear-7", some 2, none⟩

/-- Very old container that is transferring, not waiting. -/
def demoOldTransferring : ContainerState :=
  ⟨asciiBytes "report.pdf  45%| 3.2 MB/s", some (-100000), none⟩

theorem orElse_isSome (a b : Option α) : (a <|> b).isSome = (a.isSome || b.isSome) := by
  cases a <;> rfl

theorem orElse_some (a b : Option α) (v : α) (h : (a <|> b) = some v) :
    a = some v ∨ b = some v := by
  cases a with
  | none => exact Or.inr h
  | some x => exact Or.inl h

theorem searchO_exists (m : List Char → Option α) :
    ∀ l out, searchO m l = some out → ∃ suf, m suf = some out := by
  intro l
  induction l with
  | nil => exact fun out h => ⟨[], h⟩
  | cons c rest ih =>
    intro out h
    rw [searchO] at h
    rcases orElse_some _ _ _ h with h1 | h1
    · exact ⟨c :: rest, h1⟩
    · exact ih out h1

theorem kleeneP_exists (p : Char → Bool) (k : List Char → List Char → Option α) :
    ∀ cs acc out, kleeneP p k acc cs = some out →
      ∃ acc2 cs2, acc.length ≤ acc2.length ∧ k acc2 cs2 = some out := by
  intro cs
  induction cs with
  | nil => exact fun acc out h => ⟨acc, [], Nat.le_refl _, h⟩
  | cons c rest ih =>
    intro acc out h
    rw [kleeneP] at h
    by_cases hp : p c = true
    · rw [if_pos hp] at h
      rcases orElse_some _ _ _ h with h1 | h1
      · obtain ⟨a2, c2, hlen, hk⟩ := ih (c :: acc) out h1
        exact ⟨a2, c2, Nat.le_trans (Nat.le_succ _) hlen, hk⟩
      · exact ⟨acc, c :: rest, Nat.le_refl _, h1⟩
    · rw [if_neg hp] at h
      exact ⟨acc, c :: rest, Nat.le_refl _, h⟩

theorem plusP_exists (p : Char → Bool) (k : List Char → List Char → Option α) :
    ∀ acc cs out, plusP p k acc cs = some out →
      ∃ acc2 cs2, acc.length + 1 ≤ acc2.length ∧ k acc2 cs2 = some out := by
  intro acc cs out h
  cases cs with
  | nil => simp [plusP] at h
  | cons c rest =>
    rw [plusP] at h
    by_cases hp : p c = true
    · rw [if_pos hp] at h
      obtain ⟨a2, c2, hlen, hk⟩ := kleeneP_exists p k rest (c :: acc) out h
      exact ⟨a2, c2, hlen, hk⟩
    · rw [if_neg hp] at h
      exact absurd h (by simp)

theorem crocSecretAt_ne_nil (cs out : List Char) (h : crocSecretAt cs = some out) :
    out ≠ [] := by
  rw [crocSecretAt] at h
  cases hl : litIC ("CROC_SECRET=\"".data) cs with
  | none => rw [hl] at h; exact absurd h (by simp)
  | some r =>
    rw [hl] at h
    obtain ⟨a2, c2, hlen, hk⟩ := plusP_exists codeChar _ [] r out h
    split at hk
    · have hout : a2.reverse = out := Option.some.inj hk
      intro hnil
      rw [hnil] at hout
      have : a2.length = 0 := by
        have := congrArg List.length hout
        simpa using this
      omega
    · exact absurd hk (by simp)

theorem codeIsAt_ne_nil (cs out : List Char) (h : codeIsAt cs = some out) :
    out ≠ [] := by
  rw [codeIsAt] at h
  cases hl : litIC ("Code".data) cs with
  | none => rw [hl] at h; exact absurd h (by simp)
  | some r1 =>
    rw [hl] at h
    obtain ⟨a2, c2, _, hk⟩ := plusP_exists pyIsSpace _ [] r1 out h
    split at hk
    · rename_i r3 heq
      obtain ⟨a3, c3, _, hk2⟩ := kleeneP_exists pyIsSpace _ r3 [] out hk
      obtain ⟨a4, c4, hlen4, hk3⟩ := plusP_exists codeChar _ [] c3 out hk2
      have hout : a4.reverse = out := Option.some.inj hk3
      intro hnil
      rw [hnil] at hout
      have : a4.length = 0 := by
        have := congrArg List.length hout
        simpa using this
      omega
    · exact absurd hk (by simp)

/-- A code returned by `parse_code` is a nonempty string: the capture groups
of both patterns are `+`-quantified. -/
theorem parse_code_ne_nil : ∀ lines cd, parse_code lines = some cd → cd ≠ [] := by
  intro lines
  induction lines with
  | nil => intro cd h; simp [parse_code] at h
  | cons l rest ih =>
    intro cd h
    rw [parse_code] at h
    cases h1 : searchO crocSecretAt l with
    | some c =>
      rw [h1] at h
      obtain ⟨suf, hm⟩ := searchO_exists _ _ _ h1
      have := Option.some.inj h
      subst this
      exact crocSecretAt_ne_nil _ _ hm
    | none =>
      rw [h1] at h
      cases h2 : searchO codeIsAt l with
      | some c =>
        rw [h2] at h
        obtain ⟨suf, hm⟩ := searchO_exists _ _ _ h2
        have := Option.some.inj h
        subst this
        exact codeIsAt_ne_nil _ _ hm
      | none => rw [h2] at h; exact ih cd h

theorem percentTail_some (ds cs out : List Char) (h : percentTail ds cs = some out) :
    out = ds := by
  unfold percentTail at h
  split at h
  · split at h
    · exact (Option.some.inj h).symm
    · exact absurd h (by simp)
  · exact absurd h (by simp)

/-- The capture of the percent pattern is a nonempty all-digit string. -/
theorem percentCapAt_digits (cs ds : List Char) (h : percentCapAt cs = some ds) :
    (!ds.isEmpty && allDigits ds) = true := by
  cases cs with
  | nil => simp [percentCapAt] at h
  | cons c1 rest1 =>
    rw [percentCapAt.eq_def] at h
    dsimp only at h
    by_cases h1 : pyIsDigit c1 = true
    · rw [if_pos h1] at h
      rcases orElse_some _ _ _ h with h3 | h23
      · split at h3
        · rename_i c2 c3 rest3
          split at h3
          · rename_i hd
            obtain ⟨hd2, hd3⟩ := Bool.and_eq_true_iff.mp hd
            have he := percentTail_some _ _ _ h3
            subst he
            simp [allDigits, h1, hd2, hd3]
          · exact absurd h3 (by simp)
        · exact absurd h3 (by simp)
      · rcases orElse_some _ _ _ h23 with h3 | h3
        · split at h3
          · rename_i c2 rest2
            split at h3
            · rename_i hd2
              have he := percentTail_some _ _ _ h3
              subst he
              simp [allDigits, h1, hd2]
            · exact absurd h3 (by simp)
          · exact absurd h3 (by simp)
        · have he := percentTail_some _ _ _ h3
          subst he
          simp [allDigits, h1]
    · rw [if_neg h1] at h
      exact absurd h (by simp)

theorem digit_not_space (c : Char) (h : pyIsDigit c = true) : pyIsSpace c = false := by
  unfold pyIsSpace
  simp only [Bool.or_eq_false_iff]
  refine ⟨⟨⟨⟨⟨?_, ?_⟩, ?_⟩, ?_⟩, ?_⟩, ?_⟩ <;>
    (apply beq_eq_false_iff_ne.mpr; intro e; rw [e] at h; exact absurd h (by decide))

theorem dropWhile_no_space (l : List Char) (h : ∀ c ∈ l, pyIsSpace c = false) :
    l.dropWhile pyIsSpace = l := by
  cases l with
  | nil => rfl
  | cons a t => simp [List.dropWhile_cons, h a (List.mem_cons_self a t)]

theorem pyStrip_of_digits (ds : List Char) (h : allDigits ds = true) :
    pyStrip ds = ds := by
  have hall : ∀ c ∈ ds, pyIsSpace c = false := by
    intro c hc
    exact digit_not_space c (List.all_eq_true.mp h c hc)
  have hrev : ∀ c ∈ ds.reverse, pyIsSpace c = false := by
    intro c hc
    exact hall c (List.mem_reverse.mp hc)
  rw [pyStrip, dropWhile_no_space ds hall, dropWhile_no_space ds.reverse hrev,
    List.reverse_reverse]

theorem pyInt_digits (ds : List Char) (h1 : ds ≠ []) (h2 : allDigits ds = true) :
    pyInt ds = Except.ok (digitsToInt ds) := by
  rw [pyInt, pyStrip_of_digits ds h2]
  cases ds with
  | nil => exact absurd rfl h1
  | cons c t =>
    have hc : pyIsDigit c = true := List.all_eq_true.mp h2 c (List.mem_cons_self c t)
    dsimp only
    rw [if_neg, if_neg]
    · rw [intDigits, if_pos]
      simpa [allDigits] using h2
    · intro e; rw [e] at hc; exact absurd hc (by decide)
    · intro e; rw [e] at hc; exact absurd hc (by decide)

theorem progressSearchAux_percent :
    ∀ cs prev, progressSearchAux prev cs = true → (searchO percentCapAt cs).isSome = true := by
  intro cs
  induction cs with
  | nil => intro prev h; simp [progressSearchAux] at h
  | cons c rest ih =>
    intro prev h
    rw [progressSearchAux] at h
    rw [searchO, orElse_isSome]
    rcases Bool.or_eq_true_iff.mp h with h1 | h1
    · exact Bool.or_eq_true_iff.mpr (Or.inl (Bool.and_eq_true_iff.mp h1).2)
    · exact Bool.or_eq_true_iff.mpr (Or.inr (ih (some c) h1))

theorem find_first_progress_none_iff (ls : List (List Char)) :
    find_first_progress_line ls = none ↔ ∀ l ∈ ls, progress_line_search l = false := by
  induction ls with
  | nil => simp [find_first_progress_line]
  | cons l rest ih =>
    rw [find_first_progress_line]
    by_cases hp : progress_line_search l = true
    · simp [hp]
    · simp only [Bool.not_eq_true] at hp
      simp [hp, ih]

theorem find_first_progress_some (ls : List (List Char)) (l : List Char)
    (h : find_first_progress_line ls = some l) :
    progress_line_search l = true ∧ l ∈ ls := by
  induction ls with
  | nil => simp [find_first_progress_line] at h
  | cons a rest ih =>
    rw [find_first_progress_line] at h
    by_cases hp : progress_line_search a = true
    · rw [if_pos hp] at h
      have := Option.some.inj h
      subst this
      exact ⟨hp, List.mem_cons_self _ _⟩
    · rw [if_neg hp] at h
      obtain ⟨hm, hmem⟩ := ih h
      exact ⟨hm, List.mem_cons_of_mem _ hmem⟩

theorem cleanup_attempt_eq_filter (cs : List ContainerState)
    (r : ContainerState → Except DockerErr Unit) (now : ℚ) :
    cleanup_attempt cs r now = cs.filter (fun c => removalDue c now) := by
  induction cs with
  | nil => rfl
  | cons c rest ih =>
    rw [cleanup_attempt]
    rw [List.filter_cons]
    by_cases hs : (handle_container c now).status = "waiting"
    · rw [if_neg (by simp [hs])]
      cases hts : (handle_container c now).created_timestamp with
      | none =>
        have hrd : removalDue c now = false := by simp [removalDue, hts]
        simp [hrd, ih]
      | some ts =>
        dsimp only
        by_cases hlt : now - ts < WAITING_MAX_AGE_SECONDS
        · rw [if_pos hlt]
          have hrd : removalDue c now = false := by
            simp [removalDue, hts, not_le.mpr hlt]
          simp [hrd, ih]
        · rw [if_neg hlt]
          have hrd : removalDue c now = true := by
            simp [removalDue, hts, hs, le_of_not_lt hlt]
          cases hr : r c with
          | ok u => simp [hrd, ih]
          | error e => simp [hrd, ih]
    · rw [if_pos (by simp [hs])]
      have hb : ((handle_container c now).status == "waiting") = false :=
        beq_eq_false_iff_ne.mpr hs
      have hrd : removalDue c now = false := by simp [removalDue, hb]
      simp [hrd, ih]

theorem cleanup_attempt_remove_invariant (now : ℚ) (cs : List ContainerState)
    (r r2 : ContainerState → Except DockerErr Unit) :
    cleanup_attempt cs r now = cleanup_attempt cs r2 now := by
  rw [cleanup_attempt_eq_filter, cleanup_attempt_eq_filter]

theorem removalDue_iff (c : ContainerState) (now : ℚ) :
    removalDue c now = true ↔
      (handle_container c now).status = "waiting" ∧
        ∃ ts, (handle_container c now).created_timestamp = some ts ∧
          WAITING_MAX_AGE_SECONDS ≤ now - ts := by
  rw [removalDue]
  cases hts : (handle_container c now).created_timestamp with
  | none => simp
  | some ts =>
    simp only [Bool.and_eq_true_iff, beq_iff_eq, decide_eq_true_eq]
    constructor
    · rintro ⟨h1, h2⟩
      exact ⟨h1, ts, rfl, h2⟩
    · rintro ⟨h1, ts2, hts2, h2⟩
      have := Option.some.inj hts2
      subst this
      exact ⟨h1, h2⟩

/-- Claim C10: for every root directory, `resolve_entry` with the empty-string
name returns the resolved root itself; the containment check and the
existence check are skipped (the filesystem is universally quantified, so the
result holds even when the root does not exist). -/
theorem resolve_entry_empty_name (root : PathComps) (fs : PathComps → EntryKind) :
    resolve_entry root fs "" = some (pyResolve root) := by
  simp [resolve_entry]

/-- Claim C1: for every root, filesystem and non-empty name whose resolved
path lies outside the root (`relative_to` fails) or does not exist,
`resolve_entry` returns `None`, and `start_transfer` for that name answers
400 without issuing any container-creation request. -/
theorem resolve_entry_rejects_invalid
    (root : PathComps) (fs : PathComps → EntryKind) (name : String)
    (hname : name ≠ "")
    (h : (pyResolve root).isPrefixOf (pyResolve (pyJoin root name.data)) = false ∨
         fs (pyResolve (pyJoin root name.data)) = EntryKind.missing) :
    resolve_entry root fs name = none ∧
    ∀ (fh : Option FormValue) (ro : Except StartErr Unit),
      (start_transfer (some (FormValue.str name)) fh root fs ro).statusCode = 400 ∧
      (start_transfer (some (FormValue.str name)) fh root fs ro).created = none := by
  have hre : resolve_entry root fs name = none := by
    rw [resolve_entry, if_neg hname]
    rcases h with h | h
    · simp [h]
    · by_cases hp : (pyResolve root).isPrefixOf (pyResolve (pyJoin root name.data)) = true
      · simp [hp, h]
      · simp only [Bool.not_eq_true] at hp
        simp [hp]
  refine ⟨hre, fun fh ro => ?_⟩
  constructor <;> simp [start_transfer, hre, hname]

/-- Witness for C1 at the traversal input of the specification:
`../../etc/passwd` resolves to `/etc/passwd`, outside the root `files`, and is
rejected even on a filesystem where every path is a directory. -/
theorem resolve_entry_rejects_invalid_witness :
    resolve_entry ["files".data] (fun _ => EntryKind.dir) "../../etc/passwd" = none ∧
    (start_transfer (some (FormValue.str "../../etc/passwd")) none ["files".data]
      (fun _ => EntryKind.dir) (Except.ok ())).statusCode = 400 ∧
    (start_transfer (some (FormValue.str "../../etc/passwd")) none ["files".data]
      (fun _ => EntryKind.dir) (Except.ok ())).created = none := by
  have h := resolve_entry_rejects_invalid ["files".data] (fun _ => EntryKind.dir)
    "../../etc/passwd" (by decide) (Or.inl (by decide))
  exact ⟨h.1, (h.2 none (Except.ok ())).1, (h.2 none (Except.ok ())).2⟩

/-- Claim C7 (divergence witness): on a valid selection with a successful
container start, `start_transfer` returns 200 with the placeholder body
`{"hello": "123"}` — not the transfer identity and status the specification
promises — while the 400 body on an invalid selection and the 500 body with a
human-readable hint on a Docker failure behave as specified. -/
theorem start_transfer_response_bodies :
    (start_transfer (some (FormValue.str "report.pdf")) (some (FormValue.str "imohash"))
        ["files".data] fsDemo (Except.ok ())) =
      ⟨200, [("hello", "123")],
       some ⟨["send", "--hash", "imohash", "/files/report.pdf"]⟩⟩ ∧
    (start_transfer (some (FormValue.str "../../etc/passwd")) none ["files".data] fsDemo
        (Except.ok ())) = ⟨400, [("error", "Invalid file selection.")], none⟩ ∧
    (start_transfer (some (FormValue.str "report.pdf")) none ["files".data] fsDemo
        (Except.error (StartErr.dockerException "image pull failed"))) =
      ⟨500, [("error", "Docker is not available or image failed to start."),
             ("detail", "image pull failed")], none⟩ := by
  refine ⟨by decide, by decide, by decide⟩

/-- Counterexample to claim C3 as stated: a line containing `150%` followed by
a pipe yields percent 150 — out-of-range values are not discarded — and a line
containing `45%` without a following pipe yields no percent at all. -/
theorem parse_progress_details_counterexample :
    (parse_progress_details ("150%|".data)).percent = some 150 ∧
    (parse_progress_details ("45% done".data)).percent = none := by
  refine ⟨by decide, by decide⟩

/-- Claim C3 as amended: for 0 ≤ p ≤ 100 the extractor returns p for the line
`p%|` (the percent sign must be followed by a pipe for the pattern to match);
1-3-digit values above 100 are returned as parsed rather than discarded, so
the reported percent is only syntactically bounded by the 3-digit pattern,
not clamped to [0,100]. -/
theorem parse_progress_details_percent_amended :
    ∀ p : Nat, p < 101 →
      (parse_progress_details ((Nat.repr p).data ++ "%|".data)).percent = some (p : Int) := by
  decide

/-- Witness for the amended C3 at p = 45. -/
theorem parse_progress_details_percent_amended_witness :
    (parse_progress_details ((Nat.repr 45).data ++ "%|".data)).percent = some (45 : Int) :=
  parse_progress_details_percent_amended 45 (by decide)

/-- Counterexample to claim C4 as stated: the label `Code:` without `is` is
not recognised by `parse_code` (the source only knows `CROC_SECRET="..."` and
`Code is: ...`), so the second pattern of the claim extracts nothing. -/
theorem parse_code_counterexample :
    parse_code [("Code: abc-def-ghi".data)] = none := by
  decide

/-- Claim C4 as amended: `parse_code` extracts `abc-def-ghi` from
`CROC_SECRET="abc-def-ghi"` and from `Code is: abc-def-ghi` regardless of the
letter case of the surrounding label, trying the secret-assignment pattern
first and then the `Code is:` pattern on each line with the first match over
the lines winning; a bare `Code:` label is not supported, and there is no
bare-token heuristic following the tool's invocation name. -/
theorem parse_code_patterns_amended :
    parse_code [("CROC_SECRET=\"abc-def-ghi\"".data)] = some ("abc-def-ghi".data) ∧
    parse_code [("croc_secret=\"abc-def-ghi\"".data)] = some ("abc-def-ghi".data) ∧
    parse_code [("Code is: abc-def-ghi".data)] = some ("abc-def-ghi".data) ∧
    parse_code [("CODE IS: abc-def-ghi".data)] = some ("abc-def-ghi".data) ∧
    parse_code [("code  Is:abc-def-ghi".data)] = some ("abc-def-ghi".data) ∧
    parse_code [("Code is: zzz CROC_SECRET=\"abc-def-ghi\"".data)] =
      some ("abc-def-ghi".data) ∧
    parse_code [("Code is: first-code".data), ("CROC_SECRET=\"second-code\"".data)] =
      some ("first-code".data) := by
  refine ⟨by decide, by decide, by decide, by decide, by decide, by decide, by decide⟩

/-- Counterexample to claim C9 as stated: the source removes whitespace from
the matched token with `.replace(" ", "")`, which strips only the space
character, while the `\s*` segments of `SPEED_REGEX` admit any whitespace into
the match — so on the line `3.2<TAB>MB/s` the returned token keeps its tab,
i.e. still contains internal whitespace. -/
theorem speed_extraction_counterexample :
    (parse_progress_details ("3.2\tMB/s".data)).speed = some ("3.2\tMB/s".data) ∧
    ("3.2\tMB/s".data).any pyIsSpace = true := by
  refine ⟨by decide, by decide⟩

/-- Claim C9 as amended: speed extraction accepts byte-rate tokens such as
`3.2MB/s` and `1200kiB/s` in any letter case, returns the matched token with
its internal space characters removed (only spaces: other whitespace admitted
by `\s*`, such as tabs, is kept), rejects non-byte-rate strings such as
`3.2 meters/s`, and in general every returned speed token is free of
spaces. -/
theorem speed_extraction_spec :
    (parse_progress_details ("3.2MB/s".data)).speed = some ("3.2MB/s".data) ∧
    (parse_progress_details ("3.2mb/s".data)).speed = some ("3.2mb/s".data) ∧
    (parse_progress_details ("1200kiB/s".data)).speed = some ("1200kiB/s".data) ∧
    (parse_progress_details ("1200KIB/S".data)).speed = some ("1200KIB/S".data) ∧
    (parse_progress_details ("3.2 MB / s".data)).speed = some ("3.2MB/s".data) ∧
    (parse_progress_details ("3.2 meters/s".data)).speed = none ∧
    (∀ line s, (parse_progress_details line).speed = some s →
      s.all (fun c => !(c == ' ')) = true) := by
  refine ⟨by decide, by decide, by decide, by decide, by decide, by decide, ?_⟩
  intro line s h
  simp only [parse_progress_details] at h
  cases hm : SPEED_REGEX_search line with
  | none => rw [hm] at h; exact absurd h (by simp)
  | some t =>
    rw [hm] at h
    have hs : t.filter (fun c => !(c == ' ')) = s := Option.some.inj h
    subst hs
    rw [List.all_eq_true]
    intro c hc
    exact (List.mem_filter.mp hc).2

/-- Witness for the universally quantified part of C9: the token matched in
`3.2 MB / s` comes back with its internal spaces removed. -/
theorem speed_extraction_spec_witness :
    ("3.2MB/s".data).all (fun c => !(c == ' ')) = true :=
  speed_extraction_spec.2.2.2.2.2.2 ("3.2 MB / s".data) ("3.2MB/s".data) (by decide)

/-- Claim C6: one cycle of the reaper loop never escapes with an exception: a
failed listing ends the cycle with no removals (`continue`), a failed removal
skips only that container (the traversal result is independent of the removal
outcomes), and for every combination of runtime outcomes the cycle returns
normally, so no runtime failure terminates the supervisor loop. -/
theorem cleanup_cycle_never_fails
    (listing : Except DockerErr (List ContainerState))
    (removeResult : ContainerState → Except DockerErr Unit) (now : ℚ) :
    (∃ removed, cleanup_cycle listing removeResult now = Except.ok removed) ∧
    (∀ e, cleanup_cycle (Except.error e) removeResult now = Except.ok []) ∧
    (∀ cs r2, cleanup_attempt cs removeResult now = cleanup_attempt cs r2 now) := by
  refine ⟨?_, fun e => rfl, fun cs r2 => cleanup_attempt_remove_invariant now cs _ r2⟩
  cases listing with
  | error e => exact ⟨[], rfl⟩
  | ok cs => exact ⟨cleanup_attempt cs removeResult now, rfl⟩

/-- Claim C5: on a reaper cycle at time `now`, removal of a tracked container
is attempted exactly when its derived status is `waiting` and its age
`now - created_timestamp` is at least `WAITING_MAX_AGE_SECONDS = 600`
(containers without a parsable creation timestamp, or with any other status,
are never removed regardless of age). -/
theorem cleanup_removes_iff (containers : List ContainerState)
    (removeResult : ContainerState → Except DockerErr Unit) (now : ℚ)
    (c : ContainerState) :
    c ∈ cleanup_attempt containers removeResult now ↔
      c ∈ containers ∧ (handle_container c now).status = "waiting" ∧
        ∃ ts, (handle_container c now).created_timestamp = some ts ∧
          WAITING_MAX_AGE_SECONDS ≤ now - ts := by
  rw [cleanup_attempt_eq_filter, List.mem_filter]
  rw [and_congr_right_iff]
  intro _
  exact removalDue_iff c now

/-- Witness for C5: at time 601 a waiting container created at time 0 (age
601) is removed, a waiting container created at time 2 (age 599) is left
alone, and a far older container whose status is `transferring` is never
removed. -/
theorem cleanup_removes_iff_witness :
    demoWaiting601 ∈ cleanup_attempt [demoWaiting601, demoWaiting599, demoOldTransferring]
      (fun _ => Except.ok ()) 601 ∧
    demoWaiting599 ∉ cleanup_attempt [demoWaiting601, demoWaiting599, demoOldTransferring]
      (fun _ => Except.ok ()) 601 ∧
    demoOldTransferring ∉ cleanup_attempt [demoWaiting601, demoWaiting599, demoOldTransferring]
      (fun _ => Except.ok ()) 601 := by
  refine ⟨?_, ?_, ?_⟩
  · refine (cleanup_removes_iff _ _ _ _).mpr
      ⟨List.mem_cons_self _ _, by decide, 0, rfl, by norm_num [WAITING_MAX_AGE_SECONDS]⟩
  · intro hmem
    obtain ⟨-, -, ts, hts, hge⟩ := (cleanup_removes_iff _ _ _ _).mp hmem
    have : (2 : ℚ) = ts := Option.some.inj hts
    subst this
    rw [WAITING_MAX_AGE_SECONDS] at hge
    norm_num at hge
  · intro hmem
    obtain ⟨-, hst, -⟩ := (cleanup_removes_iff _ _ _ _).mp hmem
    have hreal : (handle_container demoOldTransferring 601).status = "transferring" := by
      decide
    rw [hreal] at hst
    exact absurd hst (by decide)

theorem handle_container_status_eq (c : ContainerState) (now : ℚ) :
    (handle_container c now).status =
      (if (match find_last_progress_line (decode_log_lines c.rawLogs) with
            | some l => parse_progress_details l
            | none => ⟨none, none, none, none⟩ : ProgressDetails).percent.isSome
       then "transferring"
       else if !((parse_code (decode_log_lines c.rawLogs)).getD []).isEmpty
       then "waiting" else "preparing") := rfl

/-- Claim C2: the status derived by `handle_container` from a batch of log
lines follows the fixed precedence: a line matching the progress pattern
forces `transferring` (even when a code is also present); otherwise a
discovered code forces `waiting`; otherwise the status stays at the default
`preparing`. -/
theorem handle_container_status_precedence (c : ContainerState) (now : ℚ) :
    ((∃ l ∈ decode_log_lines c.rawLogs, progress_line_search l = true) →
      (handle_container c now).status = "transferring") ∧
    ((∀ l ∈ decode_log_lines c.rawLogs, progress_line_search l = false) →
      ∀ cd, parse_code (decode_log_lines c.rawLogs) = some cd →
        (handle_container c now).status = "waiting") ∧
    ((∀ l ∈ decode_log_lines c.rawLogs, progress_line_search l = false) →
      parse_code (decode_log_lines c.rawLogs) = none →
      (handle_container c now).status = "preparing") := by
  refine ⟨?_, ?_, ?_⟩
  · rintro ⟨l, hl, hm⟩
    cases hf : find_last_progress_line (decode_log_lines c.rawLogs) with
    | none =>
      exfalso
      rw [find_last_progress_line] at hf
      have hfalse := (find_first_progress_none_iff _).mp hf l (List.mem_reverse.mpr hl)
      rw [hfalse] at hm
      exact absurd hm (by simp)
    | some l2 =>
      have hps : progress_line_search l2 = true := by
        rw [find_last_progress_line] at hf
        exact (find_first_progress_some _ _ hf).1
      have hperc : (searchO percentCapAt l2).isSome = true :=
        progressSearchAux_percent l2 none hps
      have hisSome : (parse_progress_details l2).percent.isSome = true := by
        have hpp : (parse_progress_details l2).percent =
            (searchO percentCapAt l2).map digitsToInt := rfl
        cases hsp : searchO percentCapAt l2 with
        | none => rw [hsp] at hperc; exact absurd hperc (by simp)
        | some ds => rw [hpp, hsp]; rfl
      rw [handle_container_status_eq, hf]
      simp [hisSome]
  · intro hall cd hcd
    have hf : find_last_progress_line (decode_log_lines c.rawLogs) = none := by
      rw [find_last_progress_line]
      exact (find_first_progress_none_iff _).mpr
        (fun l hl => hall l (List.mem_reverse.mp hl))
    have hne : cd ≠ [] := parse_code_ne_nil _ cd hcd
    rw [handle_container_status_eq, hf, hcd]
    cases cd with
    | nil => exact absurd rfl hne
    | cons a t => simp
  · intro hall hnone
    have hf : find_last_progress_line (decode_log_lines c.rawLogs) = none := by
      rw [find_last_progress_line]
      exact (find_first_progress_none_iff _).mpr
        (fun l hl => hall l (List.mem_reverse.mp hl))
    rw [handle_container_status_eq, hf, hnone]
    simp

/-- Witness for C2 on three concrete containers: one with both a progress
line and a code (status `transferring` — progress overrides the code), one
with only a code (`waiting`), and one with neither (`preparing`). -/
theorem handle_container_status_precedence_witness :
    (handle_container demoTransferring 100).status = "transferring" ∧
    (handle_container demoWaiting 100).status = "waiting" ∧
    (handle_container demoPreparing 100).status = "preparing" := by
  refine ⟨?_, ?_, ?_⟩
  · exact (handle_container_status_precedence demoTransferring 100).1
      ⟨"report.pdf  45%| 3.2 MB/s [1:23]".data, by decide, by decide⟩
  · exact (handle_container_status_precedence demoWaiting 100).2.1
      (by decide) ("funny-bear-7".data) (by decide)
  · exact (handle_container_status_precedence demoPreparing 100).2.2
      (by decide) (by decide)

theorem except_ok_bind (a : α) (f : α → Except ε β) :
    (Except.ok a : Except ε α) >>= f = f a := rfl

theorem except_map_ok (f : α → β) (a : α) :
    Except.map f (Except.ok a : Except ε α) = Except.ok (f a) := rfl

theorem parse_progress_detailsE_ok (line : List Char) :
    parse_progress_detailsE line = Except.ok (parse_progress_details line) := by
  have hperc : ∀ ds, searchO percentCapAt line = some ds →
      pyInt ds = Except.ok (digitsToInt ds) := by
    intro ds hp
    obtain ⟨suf, hm⟩ := searchO_exists _ _ _ hp
    have hd := percentCapAt_digits _ _ hm
    obtain ⟨hne, hdig⟩ := Bool.and_eq_true_iff.mp hd
    exact pyInt_digits ds (by simpa using hne) hdig
  unfold parse_progress_detailsE parse_progress_details
  cases hp : searchO percentCapAt line with
  | none =>
    cases hb : searchO bracketAt line with
    | none => rfl
    | some run =>
      by_cases hc : (pyStrip run).isEmpty
      · simp [hc, except_ok_bind]
      · by_cases hpe :
          (((splitChar ':' (pyStrip run)).map pyStrip).filter (fun p => !p.isEmpty)).isEmpty
        · have hnil :
              ((splitChar ':' (pyStrip run)).map pyStrip).filter (fun p => !p.isEmpty) = [] := by
            simpa using hpe
          simp [hc, hpe, hnil, except_ok_bind]
        · cases hg :
            (((splitChar ':' (pyStrip run)).map pyStrip).filter (fun p => !p.isEmpty)).getLast? with
          | none =>
            have hnil :
                ((splitChar ':' (pyStrip run)).map pyStrip).filter (fun p => !p.isEmpty) = [] := by
              simpa using hg
            rw [hnil] at hpe
            simp at hpe
          | some x => simp [hc, hpe, pyLastItem, hg, except_ok_bind, except_map_ok]
  | some ds =>
    dsimp only
    rw [hperc ds hp]
    cases hb : searchO bracketAt line with
    | none => simp [except_ok_bind, except_map_ok]
    | some run =>
      by_cases hc : (pyStrip run).isEmpty
      · simp [hc, except_ok_bind, except_map_ok]
      · by_cases hpe :
          (((splitChar ':' (pyStrip run)).map pyStrip).filter (fun p => !p.isEmpty)).isEmpty
        · have hnil :
              ((splitChar ':' (pyStrip run)).map pyStrip).filter (fun p => !p.isEmpty) = [] := by
            simpa using hpe
          simp [hc, hpe, hnil, except_ok_bind, except_map_ok]
        · cases hg :
            (((splitChar ':' (pyStrip run)).map pyStrip).filter (fun p => !p.isEmpty)).getLast? with
          | none =>
            have hnil :
                ((splitChar ':' (pyStrip run)).map pyStrip).filter (fun p => !p.isEmpty) = [] := by
              simpa using hg
            rw [hnil] at hpe
            simp at hpe
          | some x => simp [hc, hpe, pyLastItem, hg, except_ok_bind, except_map_ok]

/-- Claim C8: the extraction functions are total and never raise.
`parse_progress_details`, with the potentially raising operations of its
Python body (`int()` on the regex capture, `parts[-1]`) made explicit in the
`Except` monad, always returns `Except.ok` of the pure result; every line
produced by `decode_log_lines` on arbitrary — possibly malformed — bytes is a
nonempty (stripped) line; `parse_code` signals no-match as `None` and any
returned code is nonempty; and `find_last_progress_line` returns `None` or a
genuinely matching line. -/
theorem extraction_functions_total (raw : List UInt8) (lines : List (List Char))
    (line : List Char) :
    parse_progress_detailsE line = Except.ok (parse_progress_details line) ∧
    (∀ l ∈ decode_log_lines raw, l ≠ []) ∧
    (∀ cd, parse_code lines = some cd → cd ≠ []) ∧
    (find_last_progress_line lines = none ∨
      ∃ l2, find_last_progress_line lines = some l2 ∧ progress_line_search l2 = true) := by
  refine ⟨parse_progress_detailsE_ok line, ?_,
    fun cd h => parse_code_ne_nil lines cd h, ?_⟩
  · intro l hl
    have hl2 : l ∈ (((splitRuns isCrLf (utf8DecodeReplace raw)).map pyStrip).filter
        (fun part => !part.isEmpty)) := hl
    have h2 := (List.mem_filter.mp hl2).2
    intro e
    rw [e] at h2
    simp at h2
  · cases hf : find_last_progress_line lines with
    | none => exact Or.inl rfl
    | some l2 =>
      refine Or.inr ⟨l2, rfl, ?_⟩
      rw [find_last_progress_line] at hf
      exact (find_first_progress_some _ _ hf).1

/-- Witness for C8: the explicit-exception extractor succeeds on a concrete
progress line, and a concretely extracted code is nonempty. -/
theorem extraction_functions_total_witness :
    parse_progress_detailsE ("report.pdf  45%| 3.2 MB/s [1:23]".data) =
      Except.ok (parse_progress_details ("report.pdf  45%| 3.2 MB/s [1:23]".data)) ∧
    ("funny-bear-7".data ≠ ([] : List Char)) := by
  refine ⟨(extraction_functions_total [] [] _).1, ?_⟩
  exact (extraction_functions_total [] [("Code is: funny-bear-7".data)] []).2.2.1 _
    (by decide)
